import Mathlib

/-!
Shallow embedding of `advertorch/attacks/ead.py` (the ElasticNet / EAD L1
attack) over exact rational arithmetic.  Tensors are modelled as `List ℚ`
(one flattened image, or one per-class score vector); per-sample scalar
bookkeeping is modelled per sample index, since every update in the source
acts on each sample index independently.
-/

namespace EAD

/-- Constant `DIST_UPPER = 1e10` from `ead.py`. -/
def DIST_UPPER : ℚ := 10000000000

/-- Constant `COEFF_UPPER = 1e10` from `ead.py`. -/
def COEFF_UPPER : ℚ := 10000000000

/-- Constant `INVALID_LABEL = -1` from `ead.py`. -/
def INVALID_LABEL : ℤ := -1

/-- Constant `REPEAT_STEP = 10` from `ead.py`. -/
def REPEAT_STEP : ℕ := 10

/-- Constant `UPPER_CHECK = 1e9` from `ead.py`. -/
def UPPER_CHECK : ℚ := 1000000000

/-- Constant `TARGET_MULT = 10000` from `ead.py`. -/
def TARGET_MULT : ℚ := 10000

/-- Modelled from the spec: `advertorch.utils.clamp(input, min=None, max=None)`
(the module `advertorch/utils.py` is not in the sources); the spec calls this
"clip": values are clipped below at `lo` (when given) and above at `hi`
(when given). -/
def clampOpt (lo hi : Option ℚ) (v : ℚ) : ℚ :=
  let v1 := match lo with
    | some l => max v l
    | none => v
  match hi with
  | some h => min v1 h
  | none => v1

/-- Modelled from the spec: `advertorch.utils.calc_l1dist` (not in the
sources); per-sample L1 distance between two equal-shaped tensors. -/
def calc_l1dist (a b : List ℚ) : ℚ :=
  (List.zipWith (fun u v => |u - v|) a b).sum

/-- Modelled from the spec: `advertorch.utils.calc_l2distsq` (not in the
sources); per-sample squared L2 distance between two equal-shaped tensors. -/
def calc_l2distsq (a b : List ℚ) : ℚ :=
  (List.zipWith (fun u v => (u - v) ^ 2) a b).sum

/-- Modelled from the spec: `advertorch.attacks.utils.is_successful` (not in
the sources); spec 4.4: "succeeds if (targeted and pred == target) or (not
targeted and pred != true)". -/
def is_successful (pred lab : ℤ) (targeted : Bool) : Bool :=
  if targeted then pred = lab else pred ≠ lab

/-- Tail of `torch.max(·, dim)` / `torch.argmax` on one score vector: index of
the first maximal element (`bi` best index so far, `i` next index, `bv` best
value so far). -/
def argmaxAux : ℕ → ℕ → ℚ → List ℚ → ℕ
  | bi, _, _, [] => bi
  | bi, i, bv, v :: vs => if bv < v then argmaxAux i (i + 1) v vs else argmaxAux bi (i + 1) bv vs

/-- `torch.argmax` on one per-class score vector (first maximal index). -/
def argmaxIdx : List ℚ → ℕ
  | [] => 0
  | v :: vs => argmaxAux 0 1 v vs

/-- The confidence adjustment of `_is_successful` (ead.py lines 132-137) on one
sample: the entry at the label index gets `confidence` subtracted (targeted)
or added (untargeted). -/
def adjustLogits (targeted : Bool) (conf : ℚ) (lab : ℕ) (o : List ℚ) : List ℚ :=
  o.set lab (o.getD lab 0 + (if targeted then -conf else conf))

/-- `_is_successful(output, label, is_logits=True)` (ead.py lines 129-144) on
one sample: adjust the label's score by the confidence, take the arg-max, and
apply `is_successful`. -/
def isSuccessfulLogits (targeted : Bool) (conf : ℚ) (lab : ℕ) (o : List ℚ) : Bool :=
  is_successful (argmaxIdx (adjustLogits targeted conf lab o) : ℤ) (lab : ℤ) targeted

/-- `_is_successful(pred, label, is_logits=False)` (ead.py lines 139-144) on
one sample: a predicted label equal to `INVALID_LABEL` is never a success;
otherwise defer to `is_successful`. -/
def isSuccessfulPred (targeted : Bool) (pred lab : ℤ) : Bool :=
  if pred = INVALID_LABEL then false else is_successful pred lab targeted

/-- Per-sample slice of the accumulators `final_dist` / `final_labels` /
`final_advs` of `perturb` (ead.py lines 252-259). -/
structure FinalState where
  fdist : ℚ
  flabel : ℤ
  fadv : List ℚ
deriving DecidableEq, Repr

/-- Initial per-sample accumulator state of `perturb`: `final_dist = DIST_UPPER`,
`final_labels = INVALID_LABEL`, `final_advs = x.clone()`. -/
def initFinalState (x : List ℚ) : FinalState :=
  ⟨DIST_UPPER, INVALID_LABEL, x⟩

/-- Per-sample slice of `_update_if_smaller_dist_succeed` acting on the
`final_*` accumulators (ead.py lines 206-210): when `dist < final_dist` and the
candidate's logits are a confidence-adjusted success, all three fields are
overwritten together, the stored label being the raw arg-max of the logits. -/
def updateIfSmallerDistSucceed (targeted : Bool) (conf : ℚ) (lab : ℕ)
    (dist : ℚ) (out advimg : List ℚ) (st : FinalState) : FinalState :=
  if dist < st.fdist ∧ isSuccessfulLogits targeted conf lab out = true then
    ⟨dist, (argmaxIdx out : ℤ), advimg⟩
  else st

/-- The sequence of `_update_if_smaller_dist_succeed` calls seen by one sample
over a whole `perturb` run: `obs` is the stream of candidate images `newimg`
produced by the inner iterations (across all outer steps), `P` the classifier
(`self.predict`), `d` the distortion criterion computed by `run`. -/
def runFinalUpdates (targeted : Bool) (conf : ℚ) (lab : ℕ)
    (P : List ℚ → List ℚ) (d : List ℚ → ℚ) :
    List (List ℚ) → FinalState → FinalState
  | [], st => st
  | adv :: rest, st =>
      runFinalUpdates targeted conf lab P d rest
        (updateIfSmallerDistSucceed targeted conf lab (d adv) (P adv) adv st)

/-- Per-sample slice of the coefficient bookkeeping of `perturb`:
`coeff_lower_bound[i]`, `coeff_upper_bound[i]`, `loss_coeffs[i]`. -/
structure CoeffState where
  lower : ℚ
  upper : ℚ
  coeff : ℚ
deriving DecidableEq, Repr

/-- Per-sample body of `_update_loss_coeffs` (ead.py lines 219-235), with
`loss_coeffs` and `coeff_upper_bound` distinct cells (as the function is
written): on success the upper bound is lowered to `min(upper, coeff)` and, if
the new upper bound is below `UPPER_CHECK`, the coefficient becomes the
midpoint; on failure the lower bound is raised to `max(lower, coeff)` and the
coefficient becomes the midpoint when `upper < UPPER_CHECK`, else ten times
itself. -/
def updateLossCoeffs (succ : Bool) (s : CoeffState) : CoeffState :=
  if succ then
    let u := min s.upper s.coeff
    if u < UPPER_CHECK then ⟨s.lower, u, (s.lower + u) / 2⟩
    else ⟨s.lower, u, s.coeff⟩
  else
    let l := max s.lower s.coeff
    if s.upper < UPPER_CHECK then ⟨l, s.upper, (l + s.upper) / 2⟩
    else ⟨l, s.upper, s.coeff * 10⟩

/-- Restatement of the coefficient update following the words of the claim:
on success the upper bound is first lowered to the min, on failure the lower
bound is raised to the max; an unsuccessful sample whose upper bound has not
dropped below `UPPER_CHECK` gets its coefficient multiplied by 10, and in every
other case with the upper bound below `UPPER_CHECK` the coefficient is set to
the midpoint of the two bounds. -/
def updateLossCoeffsSpec (succ : Bool) (s : CoeffState) : CoeffState :=
  let lower' := if succ then s.lower else max s.lower s.coeff
  let upper' := if succ then min s.upper s.coeff else s.upper
  let coeff' :=
    if succ = false ∧ UPPER_CHECK ≤ upper' then s.coeff * 10
    else if upper' < UPPER_CHECK then (lower' + upper') / 2
    else s.coeff
  ⟨lower', upper', coeff'⟩

/-- The coefficient update as invoked by `_update_loss_coeffs` (ead.py lines
220-235): the success flag is `_is_successful(cur_labels[ii], labs[ii], False)`. -/
def updateLossCoeffsPred (targeted : Bool) (curLabel lab : ℤ) (s : CoeffState) : CoeffState :=
  updateLossCoeffs (isSuccessfulPred targeted curLabel lab) s

/-- Per-sample coefficient update of the final outer step when
`loss_coeffs = coeff_upper_bound` (ead.py line 280) has aliased the two
tensors: reads of `loss_coeffs[ii]` see `coeff_upper_bound[ii]` and writes to
`loss_coeffs[ii]` land in `coeff_upper_bound[ii]` (one shared cell, mirrored
into both fields). -/
def aliasedStep (succ : Bool) (s : CoeffState) : CoeffState :=
  let u := s.upper
  if succ then
    if u < UPPER_CHECK then ⟨s.lower, (s.lower + u) / 2, (s.lower + u) / 2⟩
    else ⟨s.lower, u, u⟩
  else
    let l := max s.lower u
    if u < UPPER_CHECK then ⟨l, (l + u) / 2, (l + u) / 2⟩
    else ⟨l, u * 10, u * 10⟩

/-- One sample's trace of coefficient updates across the outer steps of
`perturb` (ead.py lines 262-312): step `i` uses the aliased update exactly when
`repeat` holds and `i` is the last step index `li`. -/
def runCoeffsAux (r : Bool) (li : ℕ) : ℕ → List Bool → CoeffState → CoeffState
  | _, [], st => st
  | i, b :: bs, st =>
      runCoeffsAux r li (i + 1) bs
        (if r = true ∧ i = li then aliasedStep b st else updateLossCoeffs b st)

/-- One sample's coefficient state after a `perturb` run with
`binary_search_steps = bss`, `initial_const = c0` and per-outer-step success
outcomes `succs`: bounds start at `0` and `COEFF_UPPER`, and
`repeat = (binary_search_steps >= REPEAT_STEP)` triggers the aliased rebinding
`loss_coeffs = coeff_upper_bound` on the final step. -/
def runCoeffs (bss : ℕ) (c0 : ℚ) (succs : List Bool) : CoeffState :=
  runCoeffsAux (decide (REPEAT_STEP ≤ bss)) (bss - 1) 0 succs ⟨0, COEFF_UPPER, c0⟩

/-- `real` of `_loss_fn` / `_loss_opt_fn` (ead.py lines 97, 116) on one sample:
the one-hot-selected class score. -/
def realScore (yoh o : List ℚ) : ℚ :=
  (List.zipWith (fun yi oi => yi * oi) yoh o).sum

/-- Maximum of a score list, as `torch.max` over a nonempty dimension. -/
def listMax : List ℚ → ℚ
  | [] => 0
  | v :: vs => vs.foldl max v

/-- `other` of `_loss_fn` / `_loss_opt_fn` (ead.py lines 98, 117) on one
sample: the best score among the remaining classes, the selected class masked
out by subtracting `TARGET_MULT`. -/
def otherScore (yoh o : List ℚ) : ℚ :=
  listMax (List.zipWith (fun yi oi => (1 - yi) * oi - yi * TARGET_MULT) yoh o)

/-- The margin `loss1` of `_loss_fn` / `_loss_opt_fn` (ead.py lines 100-103,
119-122) on one sample, before weighting by the coefficient. -/
def marginOf (targeted : Bool) (conf r o : ℚ) : ℚ :=
  if targeted then clampOpt (some 0) none (o - r + conf)
  else clampOpt (some 0) none (r - o + conf)

/-- `_loss_fn` (ead.py lines 95-111): the full attack loss over a batch given
per-sample outputs, one-hot labels, L1 distances, squared-L2 distances and
coefficients. -/
def lossFn (targeted : Bool) (conf beta : ℚ) (outputs yohs : List (List ℚ))
    (l1s l2s consts : List ℚ) : ℚ :=
  let margins := List.zipWith
    (fun o yoh => marginOf targeted conf (realScore yoh o) (otherScore yoh o)) outputs yohs
  let loss1 := (List.zipWith (fun c m => c * m) consts margins).sum
  let loss21 := l1s.sum
  let loss2 := l2s.sum
  loss1 + loss2 + beta * loss21

/-- `_loss_opt_fn` (ead.py lines 114-127): the optimization loss used for the
back-propagated gradient step; same structure as `_loss_fn` with the L1 term
omitted. -/
def lossOptFn (targeted : Bool) (conf : ℚ) (outputs yohs : List (List ℚ))
    (l2s consts : List ℚ) : ℚ :=
  let margins := List.zipWith
    (fun o yoh => marginOf targeted conf (realScore yoh o) (otherScore yoh o)) outputs yohs
  let loss1 := (List.zipWith (fun c m => c * m) consts margins).sum
  let loss2 := l2s.sum
  loss1 + loss2

/-- One element of `assign_newimg` in `_fast_iterative_shrinkage_thresholding`
(ead.py lines 151-159): indicator arithmetic
`cond1 * upper + cond2 * x + cond3 * lower` with
`upper = clamp(slack - beta, max=clip_max)` and
`lower = clamp(slack + beta, min=clip_min)`. -/
def fistaCandidate (beta cmin cmax : ℚ) (x s : ℚ) : ℚ :=
  let upper := clampOpt none (some cmax) (s - beta)
  let lower := clampOpt (some cmin) none (s + beta)
  let diff := s - x
  let cond1 : ℚ := if beta < diff then 1 else 0
  let cond2 : ℚ := if |diff| ≤ beta then 1 else 0
  let cond3 : ℚ := if diff < -beta then 1 else 0
  cond1 * upper + cond2 * x + cond3 * lower

/-- One element of `_fast_iterative_shrinkage_thresholding` (ead.py lines
147-161): returns the pair (new slack, new candidate image), with momentum
`zt = global_step / (global_step + 3)`. -/
def fistaStep (beta cmin cmax : ℚ) (step : ℕ) (x s ni : ℚ) : ℚ × ℚ :=
  let zt : ℚ := (step : ℚ) / ((step : ℚ) + 3)
  let cand := fistaCandidate beta cmin cmax x s
  (cand + zt * (cand - ni), cand)

/-- Restatement of the proximal projection following the words of the claim:
three exclusive branches on `diff = slack - x`, then the momentum
extrapolation of the slack variable against the previous candidate. -/
def fistaStepSpec (beta cmin cmax : ℚ) (step : ℕ) (x s ni : ℚ) : ℚ × ℚ :=
  let diff := s - x
  let cand :=
    if beta < diff then min (s - beta) cmax
    else if |diff| ≤ beta then x
    else max (s + beta) cmin
  let zt : ℚ := (step : ℚ) / ((step : ℚ) + 3)
  (cand + zt * (cand - ni), cand)

/-- `_fast_iterative_shrinkage_thresholding` candidate image over a whole
tensor, elementwise. -/
def fistaCandidateBatch (beta cmin cmax : ℚ) (x s : List ℚ) : List ℚ :=
  List.zipWith (fistaCandidate beta cmin cmax) x s

/-- The configuration stored by `ElasticNetL1Attack.__init__` (ead.py lines
61-92); the classifier callable and the (ignored) `loss_fn` argument are not
stored here. -/
structure ElasticNetL1Attack where
  num_classes : ℕ
  confidence : ℚ
  targeted : Bool
  learning_rate : ℚ
  binary_search_steps : ℕ
  max_iterations : ℕ
  abort_early : Bool
  initial_const : ℚ
  clip_min : ℚ
  clip_max : ℚ
  beta : ℚ
  repeat_flag : Bool
  decision_rule : String
deriving DecidableEq, Repr

/-- `ElasticNetL1Attack.__init__` (ead.py lines 61-92): stores every argument
unchecked — in particular `decision_rule` is stored without validation — and
computes `repeat = binary_search_steps >= REPEAT_STEP`. -/
def elasticNetL1AttackInit (num_classes : ℕ) (confidence : ℚ) (targeted : Bool)
    (learning_rate : ℚ) (binary_search_steps max_iterations : ℕ)
    (abort_early : Bool) (initial_const clip_min clip_max beta : ℚ)
    (decision_rule : String) : ElasticNetL1Attack :=
  { num_classes := num_classes
    confidence := confidence
    targeted := targeted
    learning_rate := learning_rate
    binary_search_steps := binary_search_steps
    max_iterations := max_iterations
    abort_early := abort_early
    initial_const := initial_const
    clip_min := clip_min
    clip_max := clip_max
    beta := beta
    repeat_flag := decide (REPEAT_STEP ≤ binary_search_steps)
    decision_rule := decision_rule }

/-- The distortion criterion `crit` computed by `run` (ead.py lines 175-188):
defined for `decision_rule` equal to `"EN"` or `"L1"`, and left undefined
(`none`) for every other value, which is exactly the unbound-variable failure
of the source. -/
def runCrit (rule : String) (beta : ℚ) (x newimg : List ℚ) : Option ℚ :=
  let l2distsq := calc_l2distsq newimg x
  let l1dist := calc_l1dist newimg x
  if rule = ("EN" : String) then some (l2distsq + l1dist * beta)
  else if rule = ("L1" : String) then some l1dist
  else none

/-- Concrete two-class classifier used by witnesses: class 0 scores the first
pixel, class 1 scores a constant 3/4. -/
def predictW : List ℚ → List ℚ :=
  fun adv => [adv.headD 0, 3 / 4]

/-- Concrete distortion criterion used by witnesses: L1 distance to the fixed
original image `[1]`. -/
def distW : List ℚ → ℚ :=
  fun adv => calc_l1dist adv [1]

/-- One `_update_if_smaller_dist_succeed` call never increases `final_dist`. -/
theorem upd_fdist_le (t : Bool) (c : ℚ) (lab : ℕ) (dist : ℚ) (out adv : List ℚ)
    (st : FinalState) :
    (updateIfSmallerDistSucceed t c lab dist out adv st).fdist ≤ st.fdist := by
  unfold updateIfSmallerDistSucceed
  split_ifs with h
  · exact le_of_lt h.1
  · exact le_refl _

/-- Splitting a run of `_update_if_smaller_dist_succeed` calls at any point. -/
theorem runFinalUpdates_append (t : Bool) (c : ℚ) (lab : ℕ) (P : List ℚ → List ℚ)
    (d : List ℚ → ℚ) (o1 o2 : List (List ℚ)) : ∀ st : FinalState,
    runFinalUpdates t c lab P d (o1 ++ o2) st
      = runFinalUpdates t c lab P d o2 (runFinalUpdates t c lab P d o1 st) := by
  induction o1 with
  | nil => intro st; rfl
  | cons a r ih =>
      intro st
      simp only [List.cons_append, runFinalUpdates]
      exact ih _

/-- A whole run of `_update_if_smaller_dist_succeed` calls never increases
`final_dist`. -/
theorem runFinalUpdates_fdist_le (t : Bool) (c : ℚ) (lab : ℕ) (P : List ℚ → List ℚ)
    (d : List ℚ → ℚ) (obs : List (List ℚ)) : ∀ st : FinalState,
    (runFinalUpdates t c lab P d obs st).fdist ≤ st.fdist := by
  induction obs with
  | nil => intro st; exact le_refl _
  | cons a r ih =>
      intro st
      exact le_trans (ih _) (upd_fdist_le t c lab (d a) (P a) a st)

/-- When an `_update_if_smaller_dist_succeed` call changes the state, the new
`final_dist` is the candidate's criterion and the new `final_advs` is the
candidate image. -/
theorem upd_changed (t : Bool) (c : ℚ) (lab : ℕ) (dist : ℚ) (out adv : List ℚ)
    (st : FinalState) (h : updateIfSmallerDistSucceed t c lab dist out adv st ≠ st) :
    (updateIfSmallerDistSucceed t c lab dist out adv st).fdist = dist ∧
      (updateIfSmallerDistSucceed t c lab dist out adv st).fadv = adv := by
  unfold updateIfSmallerDistSucceed at h ⊢
  split_ifs at h ⊢ with hc
  · exact ⟨rfl, rfl⟩
  · exact absurd rfl h

/-- After a run of `_update_if_smaller_dist_succeed` calls the state is either
untouched or `final_dist`/`final_advs` come from one observed candidate. -/
theorem runFinalUpdates_eq_or_mem (t : Bool) (c : ℚ) (lab : ℕ) (P : List ℚ → List ℚ)
    (d : List ℚ → ℚ) (obs : List (List ℚ)) : ∀ st : FinalState,
    runFinalUpdates t c lab P d obs st = st ∨
      ∃ adv ∈ obs, (runFinalUpdates t c lab P d obs st).fdist = d adv ∧
        (runFinalUpdates t c lab P d obs st).fadv = adv := by
  induction obs with
  | nil => intro st; exact Or.inl rfl
  | cons a r ih =>
      intro st
      rcases ih (updateIfSmallerDistSucceed t c lab (d a) (P a) a st) with h | ⟨b, hb, h1, h2⟩
      · by_cases hc : updateIfSmallerDistSucceed t c lab (d a) (P a) a st = st
        · left
          calc runFinalUpdates t c lab P d (a :: r) st
              = runFinalUpdates t c lab P d r
                  (updateIfSmallerDistSucceed t c lab (d a) (P a) a st) := rfl
            _ = updateIfSmallerDistSucceed t c lab (d a) (P a) a st := h
            _ = st := hc
        · right
          refine ⟨a, List.mem_cons_self a r, ?_, ?_⟩
          · show (runFinalUpdates t c lab P d r
              (updateIfSmallerDistSucceed t c lab (d a) (P a) a st)).fdist = d a
            rw [h]
            exact (upd_changed t c lab (d a) (P a) a st hc).1
          · show (runFinalUpdates t c lab P d r
              (updateIfSmallerDistSucceed t c lab (d a) (P a) a st)).fadv = a
            rw [h]
            exact (upd_changed t c lab (d a) (P a) a st hc).2
      · exact Or.inr ⟨b, List.mem_cons_of_mem a hb, h1, h2⟩

/-- Invariant of the `final_*` accumulators: a valid stored label means the
stored image is a confidence-adjusted success under the classifier. -/
theorem runFinalUpdates_success_inv (t : Bool) (c : ℚ) (lab : ℕ) (P : List ℚ → List ℚ)
    (d : List ℚ → ℚ) (obs : List (List ℚ)) : ∀ st : FinalState,
    (st.flabel ≠ INVALID_LABEL → isSuccessfulLogits t c lab (P st.fadv) = true) →
    ((runFinalUpdates t c lab P d obs st).flabel ≠ INVALID_LABEL →
      isSuccessfulLogits t c lab (P (runFinalUpdates t c lab P d obs st).fadv) = true) := by
  induction obs with
  | nil => intro st h; exact h
  | cons a r ih =>
      intro st h
      apply ih
      unfold updateIfSmallerDistSucceed
      split_ifs with hc
      · intro _
        exact hc.2
      · exact h

/-- A run whose candidates are all unsuccessful leaves the `final_*`
accumulators untouched. -/
theorem runFinalUpdates_no_success (t : Bool) (c : ℚ) (lab : ℕ) (P : List ℚ → List ℚ)
    (d : List ℚ → ℚ) (obs : List (List ℚ)) : ∀ st : FinalState,
    (∀ adv ∈ obs, isSuccessfulLogits t c lab (P adv) = false) →
    runFinalUpdates t c lab P d obs st = st := by
  induction obs with
  | nil => intro st _; rfl
  | cons a r ih =>
      intro st h
      have ha : isSuccessfulLogits t c lab (P a) = false := h a (List.mem_cons_self a r)
      have hst : updateIfSmallerDistSucceed t c lab (d a) (P a) a st = st := by
        unfold updateIfSmallerDistSucceed
        split_ifs with hc
        · rw [hc.2] at ha
          cases ha
        · rfl
      show runFinalUpdates t c lab P d r
        (updateIfSmallerDistSucceed t c lab (d a) (P a) a st) = st
      rw [hst]
      exact ih st fun b hb => h b (List.mem_cons_of_mem a hb)

/-- C1: over one `perturb` run, each sample's `final_dist` is monotonically
non-increasing across the whole stream of inner-iteration updates; whenever an
update changes the state it writes `final_dist` and `final_advs` together from
the same candidate, so the stored image is always one whose distortion
criterion equals the stored `final_dist`. -/
theorem c1_final_dist_monotone_and_advs_correspond (t : Bool) (c : ℚ) (lab : ℕ)
    (P : List ℚ → List ℚ) (d : List ℚ → ℚ) (x : List ℚ) (obs1 obs2 : List (List ℚ))
    (st : FinalState) :
    (runFinalUpdates t c lab P d (obs1 ++ obs2) st).fdist
        ≤ (runFinalUpdates t c lab P d obs1 st).fdist
    ∧ (runFinalUpdates t c lab P d obs1 (initFinalState x) = initFinalState x ∨
        ∃ adv ∈ obs1, (runFinalUpdates t c lab P d obs1 (initFinalState x)).fdist = d adv ∧
          (runFinalUpdates t c lab P d obs1 (initFinalState x)).fadv = adv)
    ∧ (∀ (adv : List ℚ) (s : FinalState),
        updateIfSmallerDistSucceed t c lab (d adv) (P adv) adv s ≠ s →
        (updateIfSmallerDistSucceed t c lab (d adv) (P adv) adv s).fdist = d adv ∧
          (updateIfSmallerDistSucceed t c lab (d adv) (P adv) adv s).fadv = adv) := by
  refine ⟨?_, ?_, ?_⟩
  · rw [runFinalUpdates_append]
    exact runFinalUpdates_fdist_le t c lab P d obs2 _
  · exact runFinalUpdates_eq_or_mem t c lab P d obs1 (initFinalState x)
  · intro adv s h
    exact upd_changed t c lab (d adv) (P adv) adv s h

/-- Witness for C1: a concrete update that fires sets `final_dist` to the
candidate's criterion and `final_advs` to the candidate. -/
theorem c1_witness :
    (updateIfSmallerDistSucceed false 0 0 (distW [0]) (predictW [0]) [0]
        (initFinalState [1])).fdist = distW [0] ∧
      (updateIfSmallerDistSucceed false 0 0 (distW [0]) (predictW [0]) [0]
        (initFinalState [1])).fadv = [0] :=
  (c1_final_dist_monotone_and_advs_correspond false 0 0 predictW distW [1] [] []
      (initFinalState [1])).2.2 [0] (initFinalState [1])
    (by norm_num [updateIfSmallerDistSucceed, distW, predictW, initFinalState, calc_l1dist,
      isSuccessfulLogits, is_successful, adjustLogits, argmaxIdx, argmaxAux, INVALID_LABEL,
      DIST_UPPER])

/-- C2: if a sample ends a `perturb` run with a valid `final_labels` entry,
then running the (deterministic) classifier on its `final_advs` entry and
applying the confidence-adjusted success predicate with the same `targeted`
and `confidence` settings yields success. -/
theorem c2_valid_final_label_implies_success (t : Bool) (c : ℚ) (lab : ℕ)
    (P : List ℚ → List ℚ) (d : List ℚ → ℚ) (obs : List (List ℚ)) (x : List ℚ)
    (h : (runFinalUpdates t c lab P d obs (initFinalState x)).flabel ≠ INVALID_LABEL) :
    isSuccessfulLogits t c lab
      (P (runFinalUpdates t c lab P d obs (initFinalState x)).fadv) = true :=
  runFinalUpdates_success_inv t c lab P d obs (initFinalState x)
    (fun hl => absurd rfl hl) h

/-- Witness for C2 at a concrete classifier and run. -/
theorem c2_witness :
    isSuccessfulLogits false 0 0
      (predictW (runFinalUpdates false 0 0 predictW distW [[0]]
        (initFinalState [1])).fadv) = true :=
  c2_valid_final_label_implies_success false 0 0 predictW distW [[0]] [1]
    (by norm_num [runFinalUpdates, updateIfSmallerDistSucceed, distW, predictW, initFinalState,
      calc_l1dist, isSuccessfulLogits, is_successful, adjustLogits, argmaxIdx, argmaxAux,
      INVALID_LABEL, DIST_UPPER])

/-- C3: a sample for which no confidence-adjusted success is ever observed
keeps its initial accumulator state, whose `final_advs` entry is the copy of
the input and whose `final_labels` entry is the `INVALID_LABEL` sentinel; the
run is a total function, so no exception is involved. -/
theorem c3_no_success_falls_back_to_input (t : Bool) (c : ℚ) (lab : ℕ)
    (P : List ℚ → List ℚ) (d : List ℚ → ℚ) (obs : List (List ℚ)) (x : List ℚ)
    (h : ∀ adv ∈ obs, isSuccessfulLogits t c lab (P adv) = false) :
    runFinalUpdates t c lab P d obs (initFinalState x) = initFinalState x ∧
      (initFinalState x).fadv = x ∧ (initFinalState x).flabel = INVALID_LABEL :=
  ⟨runFinalUpdates_no_success t c lab P d obs (initFinalState x) h, rfl, rfl⟩

/-- Witness for C3 at a concrete classifier and an all-failing run. -/
theorem c3_witness :
    runFinalUpdates false 0 0 predictW distW [[1]] (initFinalState [1]) = initFinalState [1] ∧
      (initFinalState [1]).fadv = [1] ∧ (initFinalState [1]).flabel = INVALID_LABEL :=
  c3_no_success_falls_back_to_input false 0 0 predictW distW [[1]] [1]
    (by norm_num [predictW, isSuccessfulLogits, is_successful, adjustLogits, argmaxIdx,
      argmaxAux])

/-- The plain coefficient update never lowers `coeff_lower_bound`. -/
theorem updateLossCoeffs_lower_le (b : Bool) (s : CoeffState) :
    s.lower ≤ (updateLossCoeffs b s).lower := by
  cases b <;> simp only [updateLossCoeffs] <;> split_ifs <;>
    first
      | exact le_refl _
      | exact le_max_left _ _

/-- The plain coefficient update never raises `coeff_upper_bound`. -/
theorem updateLossCoeffs_upper_le (b : Bool) (s : CoeffState) :
    (updateLossCoeffs b s).upper ≤ s.upper := by
  cases b <;> simp only [updateLossCoeffs] <;> split_ifs <;>
    first
      | exact le_refl _
      | exact min_le_left _ _

/-- Even the aliased final-step update never lowers `coeff_lower_bound`. -/
theorem aliasedStep_lower_le (b : Bool) (s : CoeffState) :
    s.lower ≤ (aliasedStep b s).lower := by
  cases b <;> simp only [aliasedStep] <;> split_ifs <;>
    first
      | exact le_refl _
      | exact le_max_left _ _

/-- Splitting a coefficient-update trace at any point. -/
theorem runCoeffsAux_append (r : Bool) (li : ℕ) (s1 s2 : List Bool) : ∀ (i : ℕ) (st : CoeffState),
    runCoeffsAux r li i (s1 ++ s2) st
      = runCoeffsAux r li (i + s1.length) s2 (runCoeffsAux r li i s1 st) := by
  induction s1 with
  | nil =>
      intro i st
      simp [runCoeffsAux]
  | cons b rest ih =>
      intro i st
      rw [List.cons_append]
      show runCoeffsAux r li (i + 1) (rest ++ s2)
          (if r = true ∧ i = li then aliasedStep b st else updateLossCoeffs b st)
        = runCoeffsAux r li (i + (b :: rest).length) s2 (runCoeffsAux r li i (b :: rest) st)
      rw [ih (i + 1)]
      have hlen : i + 1 + rest.length = i + (b :: rest).length := by
        simp [List.length_cons]
        omega
      rw [hlen]
      rfl

/-- `coeff_lower_bound` is non-decreasing along any coefficient-update trace. -/
theorem runCoeffsAux_lower_le (r : Bool) (li : ℕ) (bs : List Bool) : ∀ (i : ℕ) (st : CoeffState),
    st.lower ≤ (runCoeffsAux r li i bs st).lower := by
  induction bs with
  | nil => intro i st; exact le_refl _
  | cons b rest ih =>
      intro i st
      refine le_trans ?_ (ih (i + 1) _)
      split_ifs
      · exact aliasedStep_lower_le b st
      · exact updateLossCoeffs_lower_le b st

/-- `coeff_upper_bound` is non-increasing along any coefficient-update trace
that contains no aliased step (either `repeat` is off, or every index stays
below the final step index). -/
theorem runCoeffsAux_upper_le (li : ℕ) (bs : List Bool) : ∀ (r : Bool) (i : ℕ) (st : CoeffState),
    (r = false ∨ i + bs.length ≤ li) → (runCoeffsAux r li i bs st).upper ≤ st.upper := by
  induction bs with
  | nil => intro r i st _; exact le_refl _
  | cons b rest ih =>
      intro r i st h
      have hni : ¬(r = true ∧ i = li) := by
        rcases h with h | h
        · rintro ⟨h1, _⟩
          rw [h] at h1
          cases h1
        · rintro ⟨_, h2⟩
          simp [List.length_cons] at h
          omega
      show (runCoeffsAux r li (i + 1) rest
          (if r = true ∧ i = li then aliasedStep b st else updateLossCoeffs b st)).upper ≤ st.upper
      rw [if_neg hni]
      refine le_trans (ih r (i + 1) _ ?_) (updateLossCoeffs_upper_le b st)
      rcases h with h | h
      · exact Or.inl h
      · right
        simp [List.length_cons] at h
        omega

/-- C6 counterexample: with `binary_search_steps = 10` (so `repeat` holds) and
a sample that fails every outer step, `coeff_upper_bound` is `1e10` after the
first nine updates but `1e11` after the final update — the aliased rebinding
`loss_coeffs = coeff_upper_bound` lets the times-ten branch write through to
the upper bound, which therefore increases across outer steps. -/
theorem c6_counterexample_upper_bound_increases :
    (runCoeffs 10 (1 / 1000) (List.replicate 9 false)).upper = 10000000000 ∧
      (runCoeffs 10 (1 / 1000) (List.replicate 10 false)).upper = 100000000000 ∧
      ¬((runCoeffs 10 (1 / 1000) (List.replicate 10 false)).upper
          ≤ (runCoeffs 10 (1 / 1000) (List.replicate 9 false)).upper) := by
  refine ⟨?_, ?_, ?_⟩ <;>
    norm_num [runCoeffs, runCoeffsAux, updateLossCoeffs, aliasedStep, COEFF_UPPER, UPPER_CHECK,
      REPEAT_STEP, List.replicate]

/-- C6 amended: for every sample, `coeff_lower_bound` is non-decreasing across
all outer steps, and `coeff_upper_bound` is non-increasing across all outer
steps except possibly the coefficient update after the final outer step when
`binary_search_steps >= REPEAT_STEP`, where the aliasing of `loss_coeffs` with
`coeff_upper_bound` can multiply the upper bound by ten. -/
theorem c6_bounds_monotone_amended (bss : ℕ) (c0 : ℚ) (s1 s2 : List Bool) :
    (runCoeffs bss c0 s1).lower ≤ (runCoeffs bss c0 (s1 ++ s2)).lower
    ∧ ((bss < REPEAT_STEP ∨ (s1 ++ s2).length < bss) →
        (runCoeffs bss c0 (s1 ++ s2)).upper ≤ (runCoeffs bss c0 s1).upper) := by
  constructor
  · rw [runCoeffs, runCoeffs, runCoeffsAux_append]
    exact runCoeffsAux_lower_le _ _ s2 _ _
  · intro h
    rw [runCoeffs, runCoeffs, runCoeffsAux_append]
    apply runCoeffsAux_upper_le
    rcases h with h | h
    · left
      exact decide_eq_false (by omega)
    · right
      simp [List.length_append] at h ⊢
      omega

/-- Witness for C6 amended at a concrete non-repeat run. -/
theorem c6_witness :
    (runCoeffs 9 (1 / 1000) [false]).lower ≤ (runCoeffs 9 (1 / 1000) [false, false]).lower ∧
      (runCoeffs 9 (1 / 1000) [false, false]).upper ≤ (runCoeffs 9 (1 / 1000) [false]).upper := by
  have h := c6_bounds_monotone_amended 9 (1 / 1000) [false] [false]
  exact ⟨h.1, h.2 (Or.inl (by norm_num [REPEAT_STEP]))⟩

/-- C7: the per-sample coefficient update of `_update_loss_coeffs` agrees with
the claim's description: on success the upper bound is first lowered to
`min(upper, coeff)`, on failure the lower bound is raised to
`max(lower, coeff)`; an unsuccessful sample whose upper bound is still at or
above `UPPER_CHECK` gets its coefficient multiplied by ten, and in every other
case with the upper bound below `UPPER_CHECK` the coefficient becomes the
midpoint of the bounds. -/
theorem c7_update_loss_coeffs_matches_claim (b : Bool) (s : CoeffState) :
    updateLossCoeffs b s = updateLossCoeffsSpec b s := by
  cases b <;> simp only [updateLossCoeffs, updateLossCoeffsSpec] <;> split_ifs <;>
    first
      | rfl
      | (exfalso; linarith)
      | (exfalso; simp_all)

/-- C10: in non-logits mode `_is_successful` returns false whenever the
predicted label is the `INVALID_LABEL` sentinel, for every label and both
targeted modes (confidence plays no role in this mode), so a sample whose
inner loop found no success takes the failure branch of
`_update_loss_coeffs`. -/
theorem c10_invalid_label_not_success (t : Bool) (lab : ℤ) (s : CoeffState) :
    isSuccessfulPred t INVALID_LABEL lab = false ∧
      updateLossCoeffsPred t INVALID_LABEL lab s = updateLossCoeffs false s := by
  constructor
  · simp [isSuccessfulPred]
  · simp [updateLossCoeffsPred, isSuccessfulPred]

/-- A difference that exceeds the dead zone without exceeding the threshold
from above lies below the negated threshold. -/
theorem diff_lt_neg_beta (beta d : ℚ) (h1 : ¬beta < d) (h2 : ¬|d| ≤ beta) : d < -beta := by
  rcases lt_or_le d 0 with hneg | hpos
  · have habs : beta < |d| := not_le.mp h2
    rw [abs_of_neg hneg] at habs
    linarith
  · exfalso
    have habs : beta < |d| := not_le.mp h2
    rw [abs_of_nonneg hpos] at habs
    exact h1 habs

/-- For a nonnegative threshold, the indicator arithmetic of
`_fast_iterative_shrinkage_thresholding` equals the three exclusive branches
described by the spec. -/
theorem fistaCandidate_eq_branches (beta cmin cmax x s : ℚ) (hb : 0 ≤ beta) :
    fistaCandidate beta cmin cmax x s =
      (if beta < s - x then min (s - beta) cmax
       else if |s - x| ≤ beta then x
       else max (s + beta) cmin) := by
  unfold fistaCandidate clampOpt
  by_cases h1 : beta < s - x
  · have h2 : ¬(|s - x| ≤ beta) := by
      rw [abs_le]
      push_neg
      intro
      linarith
    have h3 : ¬(s - x < -beta) := by
      push_neg
      linarith
    simp [h1, h2, h3]
  · by_cases h2 : |s - x| ≤ beta
    · have h3 : ¬(s - x < -beta) := by
        have h4 := (abs_le.mp h2).1
        push_neg
        linarith
      simp [h1, h2, h3]
    · have h3 : s - x < -beta := diff_lt_neg_beta beta (s - x) h1 h2
      simp [h1, h2, h3]

/-- One element of the FISTA candidate stays inside the clip box when the
original element does. -/
theorem fistaCandidate_bounds (beta cmin cmax x s : ℚ) (hb : 0 ≤ beta) (hc : cmin ≤ cmax)
    (hx1 : cmin ≤ x) (hx2 : x ≤ cmax) :
    cmin ≤ fistaCandidate beta cmin cmax x s ∧ fistaCandidate beta cmin cmax x s ≤ cmax := by
  rw [fistaCandidate_eq_branches beta cmin cmax x s hb]
  split_ifs with h1 h2
  · constructor
    · exact le_min (by linarith) hc
    · exact min_le_right _ _
  · exact ⟨hx1, hx2⟩
  · have h3 : s - x < -beta := diff_lt_neg_beta beta (s - x) h1 h2
    constructor
    · exact le_max_right _ _
    · exact max_le (by linarith) hc

/-- The whole FISTA candidate image stays inside the clip box when the
original image does. -/
theorem fistaCandidateBatch_bounds (beta cmin cmax : ℚ) (hb : 0 ≤ beta) (hc : cmin ≤ cmax) :
    ∀ (x s : List ℚ), (∀ v ∈ x, cmin ≤ v ∧ v ≤ cmax) →
      ∀ v ∈ fistaCandidateBatch beta cmin cmax x s, cmin ≤ v ∧ v ≤ cmax := by
  intro x
  induction x with
  | nil =>
      intro s _ v hv
      simp [fistaCandidateBatch] at hv
  | cons a r ih =>
      intro s hx v hv
      cases s with
      | nil => simp [fistaCandidateBatch] at hv
      | cons b t =>
          rw [fistaCandidateBatch, List.zipWith, List.mem_cons] at hv
          rcases hv with hv | hv
          · rw [hv]
            exact fistaCandidate_bounds beta cmin cmax a b hb hc
              (hx a (by simp)).1 (hx a (by simp)).2
          · exact ih t (fun u hu => hx u (by simp [hu])) v hv

/-- C5: for an input image inside `[clip_min, clip_max]` and a nonnegative
shrinkage threshold, every element of every candidate image produced by the
proximal projection lies in `[clip_min, clip_max]`, and hence so does every
image ever held by `final_advs` along a run whose observed candidates are such
projections. -/
theorem c5_box_constraint (beta cmin cmax : ℚ) (x s : List ℚ) (hb : 0 ≤ beta)
    (hc : cmin ≤ cmax) (hx : ∀ v ∈ x, cmin ≤ v ∧ v ≤ cmax) :
    (∀ v ∈ fistaCandidateBatch beta cmin cmax x s, cmin ≤ v ∧ v ≤ cmax)
    ∧ ∀ (t : Bool) (c : ℚ) (lab : ℕ) (P : List ℚ → List ℚ) (d : List ℚ → ℚ)
        (obs : List (List ℚ)),
        (∀ adv ∈ obs, ∀ v ∈ adv, cmin ≤ v ∧ v ≤ cmax) →
        ∀ v ∈ (runFinalUpdates t c lab P d obs (initFinalState x)).fadv,
          cmin ≤ v ∧ v ≤ cmax := by
  constructor
  · exact fistaCandidateBatch_bounds beta cmin cmax hb hc x s hx
  · intro t c lab P d obs hobs v hv
    rcases runFinalUpdates_eq_or_mem t c lab P d obs (initFinalState x) with h | ⟨adv, ha, _, h2⟩
    · rw [h] at hv
      exact hx v hv
    · rw [h2] at hv
      exact hobs adv ha v hv

/-- Witness for C5 at a concrete projection element. -/
theorem c5_witness :
    0 ≤ fistaCandidate (1 / 100) 0 1 (1 / 2) 2 ∧ fistaCandidate (1 / 100) 0 1 (1 / 2) 2 ≤ 1 := by
  have h := (c5_box_constraint (1 / 100) 0 1 [1 / 2] [2] (by norm_num) (by norm_num)
    (by
      intro v hv
      rw [List.mem_singleton] at hv
      rw [hv]
      norm_num)).1
  exact h (fistaCandidate (1 / 100) 0 1 (1 / 2) 2) (by simp [fistaCandidateBatch])

/-- C8: for a nonnegative threshold, the proximal projection computes the
three-branch candidate of the spec — clip above after shrinking when the
difference exceeds `beta`, snap to `x` inside the dead zone, clip below after
growing when the difference is below `-beta` — and the new slack is the
candidate extrapolated against the previous candidate with momentum
`zt = step / (step + 3)`. -/
theorem c8_fista_matches_spec (beta cmin cmax : ℚ) (step : ℕ) (x s ni : ℚ) (hb : 0 ≤ beta) :
    fistaStep beta cmin cmax step x s ni = fistaStepSpec beta cmin cmax step x s ni := by
  unfold fistaStep fistaStepSpec
  rw [fistaCandidate_eq_branches beta cmin cmax x s hb]

/-- Witness for C8 at concrete values. -/
theorem c8_witness :
    fistaStep (1 / 100) 0 1 2 (1 / 2) (3 / 4) (1 / 2)
      = fistaStepSpec (1 / 100) 0 1 2 (1 / 2) (3 / 4) (1 / 2) :=
  c8_fista_matches_spec (1 / 100) 0 1 2 (1 / 2) (3 / 4) (1 / 2) (by norm_num)

/-- C9: the full attack loss is `sum(coeff * margin) + sum(l2distsq) +
beta * sum(l1dist)` with the confidence margin as described, and the
optimization loss used for the gradient step is the same expression with the
L1 term omitted. -/
theorem c9_loss_decomposition (t : Bool) (conf beta : ℚ) (outputs yohs : List (List ℚ))
    (l1s l2s consts : List ℚ) :
    lossFn t conf beta outputs yohs l1s l2s consts
        = (List.zipWith (fun c m => c * m) consts
            (List.zipWith (fun o yoh =>
              if t then max (otherScore yoh o - realScore yoh o + conf) 0
              else max (realScore yoh o - otherScore yoh o + conf) 0) outputs yohs)).sum
          + l2s.sum + beta * l1s.sum
    ∧ lossOptFn t conf outputs yohs l2s consts
        = lossFn t conf beta outputs yohs l1s l2s consts - beta * l1s.sum := by
  constructor
  · rfl
  · unfold lossFn lossOptFn
    ring

/-- C4 evidence: constructing the attack with an invalid `decision_rule` is
accepted unchecked by `__init__`, and the criterion of `run` is undefined for
it while being defined for both valid rules — so the failure surfaces only
inside the search loop, not as a fail-fast configuration error. -/
theorem c4_invalid_decision_rule_not_fail_fast :
    (elasticNetL1AttackInit 10 0 false (1 / 100) 9 10000 false (1 / 1000) 0 1 (1 / 100)
        ("L2")).decision_rule = ("L2" : String)
    ∧ runCrit ("L2") (1 / 100) [0] [1] = none
    ∧ runCrit ("EN") (1 / 100) [0] [1] = some (101 / 100)
    ∧ runCrit ("L1") (1 / 100) [0] [1] = some 1 := by
  refine ⟨rfl, by simp [runCrit], ?_, ?_⟩
  · norm_num [runCrit, calc_l1dist, calc_l2distsq]
  · norm_num [runCrit, calc_l1dist, calc_l2distsq]
    decide

end EAD
